import Mathlib

/-!
Shallow embedding of the BuzHash rolling-hash module (`assembly/index.ts`).

The module operates on raw linear memory (wasm32).  We model memory as a
byte-addressed map `Nat → Nat`; every store masks its value to a byte, and
multi-byte loads/stores are little-endian, matching wasm `load<u8>/u16/u32`
and `store<u8>/u16/u32`.

The engine header layout (class `Header`, `@unmanaged`, AssemblyScript
natural field layout) is:
  offset 0: `state`     (u32)
  offset 4: `blockSize` (u16)
  offset 6: `position`  (u16)
  offset 8: `overflow`  (u8)
so `offsetof<Header>() = 9` (the test suite asserts `size(b) = b + 9`).

The mutable global `staticData` together with the linear memory forms the
module state (`ModuleState`).
-/

def Mem : Type := Nat → Nat

def store8 (m : Mem) (a v : Nat) : Mem :=
  fun x => if x = a then v % 256 else m x

def load8 (m : Mem) (a : Nat) : Nat := m a % 256

def store16 (m : Mem) (a v : Nat) : Mem :=
  store8 (store8 m a v) (a + 1) (v / 256)

def load16 (m : Mem) (a : Nat) : Nat :=
  load8 m a + 256 * load8 m (a + 1)

def store32 (m : Mem) (a v : Nat) : Mem :=
  store8 (store8 (store8 (store8 m a v) (a + 1) (v / 256)) (a + 2) (v / 65536))
    (a + 3) (v / 16777216)

def load32 (m : Mem) (a : Nat) : Nat :=
  load8 m a + 256 * load8 m (a + 1) + 65536 * load8 m (a + 2) +
    16777216 * load8 m (a + 3)

/-- wasm32 `i32.rotl` (AssemblyScript `rotl<u32>`): rotate a 32-bit word left,
the rotation count taken modulo 32. -/
def rotl32 (x n : Nat) : Nat :=
  (((x % 4294967296) <<< (n % 32)) % 4294967296) ^^^
    ((x % 4294967296) >>> (32 - n % 32))

/-- `offsetof<Header>()`: `state` u32 at 0, `blockSize` u16 at 4,
`position` u16 at 6, `overflow` u8 at 8; total 9 bytes. -/
def offsetofHeader : Nat := 9

/-- `export function size(blockSize: u16): usize`. -/
def size (blockSize : Nat) : Nat := offsetofHeader + blockSize

/-- `export function init(dest: usize, blockSize: u16): void`.
Writes `state = 0`, `blockSize`, `position = 0`, `overflow = 0` into the
header at `dest` and returns the updated memory. -/
def init (m : Mem) (dest blockSize : Nat) : Mem :=
  store8 (store16 (store16 (store32 m dest 0) (dest + 4) blockSize)
    (dest + 6) 0) (dest + 8) 0

/-- The wasm module's state: its linear memory plus the mutable global
`staticData` (initialized to `usize.MAX_VALUE`). -/
structure ModuleState where
  mem : Mem
  staticData : Nat

/-- `usize.MAX_VALUE` on wasm32, the value the AssemblyScript literal `-1`
coerces to as a `usize`. -/
def usizeMax : Nat := 4294967295

/-- `export function add(buzHash: usize, byte: u8): u32`, translated
load-by-load and store-by-store from the source:
1. if `position == blockSize` then `position = 0; overflow = 1`;
2. `state = rotl(header.state, 1)`;
3. if `overflow` then `removed = load<u8>(buffer + position)`;
   `random = load<u32>(staticData + removed)`;
   `state ^= rotl(random, blockSize)`;
4. `store<u8>(buffer + position, byte)`; `position++`;
5. `state ^= load<u32>(staticData + byte)`; `header.state = state`;
   return `state`.
Note the table lookups add the (removed) byte value to `staticData` as a raw
byte offset, exactly as the source does. -/
def add (st : ModuleState) (buzHash byte : Nat) : ModuleState × Nat :=
  let m0 := st.mem
  let buffer := buzHash + offsetofHeader
  let m1 :=
    if load16 m0 (buzHash + 6) = load16 m0 (buzHash + 4) then
      store8 (store16 m0 (buzHash + 6) 0) (buzHash + 8) 1
    else m0
  let s0 := rotl32 (load32 m1 buzHash) 1
  let s1 :=
    if load8 m1 (buzHash + 8) ≠ 0 then
      s0 ^^^ rotl32 (load32 m1 (st.staticData + load8 m1 (buffer + load16 m1 (buzHash + 6))))
        (load16 m1 (buzHash + 4))
    else s0
  let m2 := store8 m1 (buffer + load16 m1 (buzHash + 6)) byte
  let m3 := store16 m2 (buzHash + 6) (load16 m2 (buzHash + 6) + 1)
  let s2 := s1 ^^^ load32 m3 (st.staticData + byte)
  let m4 := store32 m3 buzHash s2
  (⟨m4, st.staticData⟩, s2)

/-- The 256 u32 constants written by `staticInit`, in source order. -/
def staticTable : List Nat :=
  [0x12bd9527, 0xf4140cea, 0x987bd6e1, 0x79079850, 0xafbfd539, 0xd350ce0a, 0x82973931, 0x9fc32b9c
   , 0x28003b88, 0xc30c13aa, 0x6b678c34, 0x5844ef1d, 0xaa552c18, 0x4a77d3e8, 0xd1f62ea0, 0x6599417c
   , 0xfbe30e7a, 0xf9e2d5ee, 0xa1fca42e, 0x41548969, 0x116d5b59, 0xaeda1e1a, 0xc5191c17, 0x54b9a3cb
   , 0x727e492a, 0x5c432f91, 0x31a50bce, 0xc2696af6, 0x217c8020, 0x1262aefc, 0xace75924, 0x9876a04f
   , 0xaf300bc2, 0x3ffce3f6, 0xd6680fb5, 0xd0b1ced8, 0x6651f842, 0x736fadef, 0xbc2d3429, 0xb03d2904
   , 0x7e634ba4, 0xdfd87d8c, 0x7988d63a, 0x4be4d933, 0x6a8d0382, 0x9e132d62, 0x3ee9c95f, 0xfec05b97
   , 0x6907ad34, 0x8616cfcc, 0xa6aabf24, 0x8ad1c92e, 0x4f2affc0, 0xb87519db, 0x6576eaf6, 0x15dbe00a
   , 0x63e1dd82, 0xa36b6a81, 0xeead99b3, 0xbc6a4309, 0x3478d1a7, 0x2182bcc0, 0xdd50cfce, 0x7cb25580
   , 0x73075483, 0x503b7f42, 0x4cd50d63, 0x3f4d94c9, 0x385fcbb7, 0x90daf16c, 0xece10b8e, 0x11c1cb04
   , 0x816a899b, 0x69a29d06, 0xfb090b37, 0xf98ef13c, 0x07653435, 0x9f15dc42, 0x3b43abdf, 0x1334283f
   , 0x93f3d9af, 0x0cbdfe71, 0xa788a614, 0x4f54d2f0, 0xd4374fc7, 0x70557ce7, 0xf741fce8, 0xe4b6f661
   , 0xc630cb98, 0x387a6366, 0x72f428fd, 0x539009db, 0xc53e3810, 0x1e1a52e5, 0x7d6816b0, 0x040f9b81
   , 0x9c99c9fb, 0x9f3af3d2, 0x774d1061, 0xd5c840ea, 0x8e1480fe, 0x6ee4023c, 0x2fbda535, 0xd88eff7a
   , 0xd8632a2a, 0x43c4e024, 0x3ef27971, 0xc72866fd, 0xe35cc630, 0x46d96220, 0x437a8384, 0xe92caf0c
   , 0x6290a47e, 0xa7bb9238, 0x0e1000f9, 0x49e76bdc, 0x3acfb4b8, 0x03582b8e, 0x6ea2de4e, 0x2ec1008d
   , 0xfcc8df69, 0x91c2fe0a, 0xb471c7d9, 0x778be812, 0x70d29ad1, 0x76411cbf, 0xc302e81c, 0x4e445194
   , 0x22e3aa72, 0xb65762e9, 0xa280db05, 0x827aa70e, 0x4c531a9d, 0x7a60bf4a, 0x8fd95a44, 0x2289aef0
   , 0xcd50ddc4, 0x639aae69, 0x5fe85ed6, 0x4ed724ff, 0x00f04f7d, 0x95a5fcb0, 0x88255d15, 0xa603d2c9
   , 0xf6956a5b, 0x53ea7f3e, 0xb570f225, 0x2b3be203, 0xa181e40e, 0xc413cdce, 0xa7cb1ebb, 0xcf258b1f
   , 0x516eb016, 0xca204586, 0xd1e69894, 0xe85a73d3, 0x7db2d382, 0xae73b463, 0x3598d643, 0x5087c864
   , 0xd91f30b6, 0xe1d4d1e7, 0x73b3b337, 0xceac1233, 0x8edf7845, 0xa69c45c9, 0xdb5db3ab, 0x28cfade8
   , 0xebfa49e7, 0xcbc2a659, 0x59cce971, 0x959a01af, 0x8ee9aae7, 0xfb2f01c6, 0x5a752836, 0x9ed12981
   , 0x618d05b6, 0x93ec12b3, 0x4590c779, 0xed1317a2, 0x03fe5835, 0x7ad3c6f7, 0xd4aad5b5, 0x1a995ed7
   , 0x247bfaa4, 0x69c2c799, 0x745fa405, 0xc5b9f239, 0xc3d9aebc, 0xa6f60e0b, 0xdf1e91d7, 0xab8e041c
   , 0xee3188c6, 0x37377a9e, 0xc0e1a3bf, 0x19a5a9e4, 0x56cb9556, 0xc4d33d3f, 0xfb1eb03e, 0xf9557057
   , 0x1be31d37, 0xd1fa65f1, 0xf518d714, 0x570ac722, 0xf26cf66a, 0x24794d47, 0x8ba2e402, 0x3f5137e6
   , 0x35be1453, 0x43350478, 0x9f05ee88, 0x364cf9cf, 0x39a23ee7, 0xa4db8d49, 0xc2ebb3d2, 0xc6fb99d5
   , 0xe014dfb0, 0x7156d425, 0xe090a87a, 0x4cc12f78, 0x1b30f503, 0x06694a7a, 0x68198cd1, 0x2f8345bd
   , 0x9d79198e, 0xd871943f, 0x22ef6cf4, 0xe81b1c15, 0x067b61d8, 0xfc4ea4f5, 0xfe6dab57, 0x1bf744ba
   , 0xa70b6a25, 0xafe6e412, 0xc6c1a05c, 0x8ffbe3ce, 0xc4270af1, 0xf3f36373, 0xc4507dd8, 0x5e6fd1e2
   , 0x58cd9739, 0x47d3c5b5, 0xe1d5a343, 0x3d4dea4a, 0x893d91ae, 0xbb2a5e2a, 0x0d57b800, 0x652a7cc9
   , 0x6a68ccfd, 0x62529f0b, 0xec5f36d6, 0x766cceda, 0x96ca63ef, 0xa0499838, 0xd9030f59, 0x8185f4d2]

/-- The sequence of `store<u32>(p, v); p += 4;` statements in `staticInit`:
returns the memory after all stores together with the final pointer `p`. -/
def storeConsts (m : Mem) (p : Nat) (vs : List Nat) : Mem × Nat :=
  match vs with
  | [] => (m, p)
  | v :: rest => storeConsts (store32 m p v) (p + 4) rest

/-- `export function staticInit(dest: usize): usize`. -/
def staticInit (st : ModuleState) (dest : Nat) : ModuleState × Nat :=
  if dest = usizeMax then
    (st, 1024)
  else
    let mp := storeConsts st.mem dest staticTable
    (⟨mp.1, dest⟩, mp.2 - dest)

/-- Feed a list of bytes one `add` call at a time, threading the module state
and remembering the hash returned by the most recent call. -/
def run (p : ModuleState × Nat) (buzHash : Nat) (bytes : List Nat) :
    ModuleState × Nat :=
  bytes.foldl (fun q b => add q.1 buzHash b) p

/-- All-zero memory, used to build concrete instances. -/
def zeroMem : Mem := fun _ => 0

/-! ### Pointwise memory lemmas -/

theorem store8_apply_ne (m : Mem) (s v x : Nat) (h : x ≠ s) :
    store8 m s v x = m x := by
  simp [store8, h]

theorem store8_apply_self (m : Mem) (s v : Nat) : store8 m s v s = v % 256 := by
  simp [store8]

theorem store16_apply_ne (m : Mem) (s v x : Nat) (h1 : x ≠ s) (h2 : x ≠ s + 1) :
    store16 m s v x = m x := by
  unfold store16
  rw [store8_apply_ne _ _ _ _ h2, store8_apply_ne _ _ _ _ h1]

theorem store32_apply_ne (m : Mem) (s v x : Nat) (h1 : x ≠ s) (h2 : x ≠ s + 1)
    (h3 : x ≠ s + 2) (h4 : x ≠ s + 3) : store32 m s v x = m x := by
  unfold store32
  rw [store8_apply_ne _ _ _ _ h4, store8_apply_ne _ _ _ _ h3,
    store8_apply_ne _ _ _ _ h2, store8_apply_ne _ _ _ _ h1]

theorem load8_congr (m m' : Mem) (x : Nat) (h : m x = m' x) :
    load8 m x = load8 m' x := by
  simp [load8, h]

theorem load16_congr (m m' : Mem) (x : Nat) (h0 : m x = m' x)
    (h1 : m (x + 1) = m' (x + 1)) : load16 m x = load16 m' x := by
  simp [load16, load8, h0, h1]

theorem load32_congr (m m' : Mem) (x : Nat) (h0 : m x = m' x)
    (h1 : m (x + 1) = m' (x + 1)) (h2 : m (x + 2) = m' (x + 2))
    (h3 : m (x + 3) = m' (x + 3)) : load32 m x = load32 m' x := by
  simp [load32, load8, h0, h1, h2, h3]

theorem load8_lt (m : Mem) (x : Nat) : load8 m x < 256 :=
  Nat.mod_lt _ (by omega)

theorem load16_lt (m : Mem) (x : Nat) : load16 m x < 65536 := by
  have h0 := load8_lt m x
  have h1 := load8_lt m (x + 1)
  unfold load16
  omega

theorem load32_lt (m : Mem) (x : Nat) : load32 m x < 4294967296 := by
  have h0 := load8_lt m x
  have h1 := load8_lt m (x + 1)
  have h2 := load8_lt m (x + 2)
  have h3 := load8_lt m (x + 3)
  unfold load32
  omega

theorem load8_store8_self (m : Mem) (s v : Nat) :
    load8 (store8 m s v) s = v % 256 := by
  unfold load8
  rw [store8_apply_self]
  omega

theorem load16_store16_self (m : Mem) (s v : Nat) :
    load16 (store16 m s v) s = v % 65536 := by
  have h0 : store16 m s v s = v % 256 := by
    unfold store16
    rw [store8_apply_ne _ _ _ _ (by omega), store8_apply_self]
  have h1 : store16 m s v (s + 1) = v / 256 % 256 := by
    unfold store16
    rw [store8_apply_self]
  unfold load16 load8
  rw [h0, h1]
  omega

theorem load32_store32_self (m : Mem) (s v : Nat) :
    load32 (store32 m s v) s = v % 4294967296 := by
  have h0 : store32 m s v s = v % 256 := by
    unfold store32
    rw [store8_apply_ne _ _ _ _ (by omega), store8_apply_ne _ _ _ _ (by omega),
      store8_apply_ne _ _ _ _ (by omega), store8_apply_self]
  have h1 : store32 m s v (s + 1) = v / 256 % 256 := by
    unfold store32
    rw [store8_apply_ne _ _ _ _ (by omega), store8_apply_ne _ _ _ _ (by omega),
      store8_apply_self]
  have h2 : store32 m s v (s + 2) = v / 65536 % 256 := by
    unfold store32
    rw [store8_apply_ne _ _ _ _ (by omega), store8_apply_self]
  have h3 : store32 m s v (s + 3) = v / 16777216 % 256 := by
    unfold store32
    rw [store8_apply_self]
  unfold load32 load8
  rw [h0, h1, h2, h3]
  omega

/-! ### Lemmas about the 32-bit rotate -/
theorem two_pow_32 : (2 : Nat) ^ 32 = 4294967296 := by norm_num

theorem testBit_rotl32 (x n i : Nat) :
    (rotl32 x n).testBit i =
      (decide (i < 32) && x.testBit ((i + 32 - n % 32) % 32)) := by
  have hs : n % 32 < 32 := Nat.mod_lt _ (by omega)
  unfold rotl32
  rw [← two_pow_32]
  simp only [Nat.testBit_xor, Nat.testBit_mod_two_pow, Nat.testBit_shiftLeft,
    Nat.testBit_shiftRight]
  rcases Nat.lt_or_ge i 32 with hi | hi
  · rcases Nat.lt_or_ge i (n % 32) with hlt | hge
    · have h1 : ¬ (i ≥ n % 32) := by omega
      have h2 : 32 - n % 32 + i < 32 := by omega
      have h3 : (i + 32 - n % 32) % 32 = 32 - n % 32 + i := by omega
      simp [hi, h1, h2, h3]
    · have h2 : ¬ (32 - n % 32 + i < 32) := by omega
      have h3 : (i + 32 - n % 32) % 32 = i - n % 32 := by omega
      have h4 : i - n % 32 < 32 := by omega
      simp [hi, hge, h2, h3, h4]
  · have h1 : ¬ (i < 32) := by omega
    have h2 : ¬ (32 - n % 32 + i < 32) := by omega
    simp [h1, h2]

theorem rotl32_lt (x n : Nat) : rotl32 x n < 4294967296 := by
  rw [← two_pow_32]
  apply Nat.xor_lt_two_pow
  · exact Nat.mod_lt _ (by omega)
  · calc (x % 4294967296) >>> (32 - n % 32) ≤ x % 4294967296 := by
          rw [Nat.shiftRight_eq_div_pow]; exact Nat.div_le_self _ _
      _ < 2 ^ 32 := by rw [two_pow_32]; exact Nat.mod_lt _ (by omega)

theorem rotl32_zero (n : Nat) : rotl32 0 n = 0 := by
  simp [rotl32]

theorem rotl32_id (x : Nat) (h : x < 4294967296) : rotl32 x 0 = x := by
  unfold rotl32
  have h1 : x % 4294967296 = x := Nat.mod_eq_of_lt h
  simp only [Nat.zero_mod, Nat.shiftLeft_zero, Nat.sub_zero, h1]
  rw [Nat.shiftRight_eq_div_pow, two_pow_32, Nat.div_eq_of_lt h, Nat.xor_zero]

theorem rotl32_comp (x a b : Nat) :
    rotl32 (rotl32 x a) b = rotl32 x (a + b) := by
  apply Nat.eq_of_testBit_eq
  intro i
  rw [testBit_rotl32, testBit_rotl32, testBit_rotl32]
  rcases Nat.lt_or_ge i 32 with hi | hi
  · have hj : (i + 32 - b % 32) % 32 < 32 := Nat.mod_lt _ (by omega)
    simp only [hi, hj, decide_True, Bool.true_and, eq_self_iff_true,
      decide_eq_true_eq]
    have harg : ((i + 32 - b % 32) % 32 + 32 - a % 32) % 32 =
        (i + 32 - (a + b) % 32) % 32 := by omega
    rw [harg]
  · have h1 : ¬ (i < 32) := by omega
    simp [h1]

theorem rotl32_xor_distrib (x y n : Nat) :
    rotl32 (x ^^^ y) n = rotl32 x n ^^^ rotl32 y n := by
  apply Nat.eq_of_testBit_eq
  intro i
  rw [Nat.testBit_xor, testBit_rotl32, testBit_rotl32, testBit_rotl32,
    Nat.testBit_xor]
  by_cases hi : i < 32 <;> simp [hi]

/-! ### staticInit building blocks -/

theorem storeConsts_snd (vs : List Nat) :
    ∀ (m : Mem) (p : Nat), (storeConsts m p vs).2 = p + 4 * vs.length := by
  induction vs with
  | nil => intro m p; simp [storeConsts]
  | cons v t ih =>
    intro m p
    rw [storeConsts, ih]
    simp [List.length_cons]
    omega

theorem storeConsts_frame (vs : List Nat) :
    ∀ (m : Mem) (p x : Nat), x < p ∨ p + 4 * vs.length ≤ x →
      (storeConsts m p vs).1 x = m x := by
  induction vs with
  | nil => intro m p x _; rfl
  | cons v t ih =>
    intro m p x hx
    rw [storeConsts]
    have hlen : (v :: t).length = t.length + 1 := List.length_cons v t
    rw [ih _ _ _ (by rw [hlen] at hx; omega)]
    exact store32_apply_ne _ _ _ _ (by rw [hlen] at hx; omega)
      (by rw [hlen] at hx; omega) (by rw [hlen] at hx; omega)
      (by rw [hlen] at hx; omega)

theorem storeConsts_load (vs : List Nat) :
    ∀ (m : Mem) (p i : Nat), i < vs.length → (∀ v ∈ vs, v < 4294967296) →
      load32 (storeConsts m p vs).1 (p + 4 * i) = vs.getD i 0 := by
  induction vs with
  | nil => intro m p i hi _; simp at hi
  | cons v t ih =>
    intro m p i hi hv
    cases i with
    | zero =>
      rw [storeConsts]
      simp only [Nat.mul_zero, Nat.add_zero, List.getD_cons_zero]
      have h0 := storeConsts_frame t (store32 m p v) (p + 4) p (Or.inl (by omega))
      have h1 := storeConsts_frame t (store32 m p v) (p + 4) (p + 1) (Or.inl (by omega))
      have h2 := storeConsts_frame t (store32 m p v) (p + 4) (p + 2) (Or.inl (by omega))
      have h3 := storeConsts_frame t (store32 m p v) (p + 4) (p + 3) (Or.inl (by omega))
      rw [load32_congr _ _ _ h0 h1 h2 h3, load32_store32_self]
      exact Nat.mod_eq_of_lt (hv v (by simp))
    | succ j =>
      rw [storeConsts]
      have : p + 4 * (j + 1) = (p + 4) + 4 * j := by omega
      rw [this, ih _ _ j (by simp at hi; omega) (fun w hw => hv w (by simp [hw]))]
      simp [List.getD_cons_succ]

/-! ### The abstract BuzHash of a byte list, used to state the invariant -/

/-- One abstract BuzHash step: age the accumulator one bit, XOR in the
contribution of byte `b` under the contribution map `R`. -/
def bstep (R : Nat → Nat) (s b : Nat) : Nat := rotl32 s 1 ^^^ R b

/-- The BuzHash of a byte list under contribution map `R`, from a zero
accumulator. -/
def bhash (R : Nat → Nat) (ys : List Nat) : Nat := ys.foldl (bstep R) 0

theorem foldl_bstep_xor (R : Nat → Nat) (ys : List Nat) :
    ∀ (x y : Nat), y < 4294967296 →
      ys.foldl (bstep R) (x ^^^ y) = ys.foldl (bstep R) x ^^^ rotl32 y ys.length := by
  induction ys with
  | nil =>
    intro x y hy
    simp [rotl32_id y hy]
  | cons b t ih =>
    intro x y hy
    simp only [List.foldl_cons, List.length_cons]
    have h1 : bstep R (x ^^^ y) b = bstep R x b ^^^ rotl32 y 1 := by
      unfold bstep
      rw [rotl32_xor_distrib, Nat.xor_assoc, Nat.xor_comm (rotl32 y 1) (R b),
        ← Nat.xor_assoc]
    rw [h1, ih _ _ (rotl32_lt y 1), rotl32_comp]
    have h2 : 1 + t.length = t.length + 1 := by omega
    rw [h2]

theorem bhash_append_one (R : Nat → Nat) (ys : List Nat) (b : Nat) :
    bhash R (ys ++ [b]) = rotl32 (bhash R ys) 1 ^^^ R b := by
  unfold bhash
  rw [List.foldl_append]
  rfl

/-- Peeling the oldest byte of the window off the hash: its contribution
sits at rotation `|t|`. -/
theorem bhash_cons (R : Nat → Nat) (r : Nat) (t : List Nat)
    (hR : R r < 4294967296) :
    bhash R (r :: t) = bhash R t ^^^ rotl32 (R r) t.length := by
  unfold bhash
  simp only [List.foldl_cons]
  have h1 : bstep R 0 r = 0 ^^^ R r := by
    unfold bstep
    rw [rotl32_zero]
  rw [h1, foldl_bstep_xor R t 0 (R r) hR]

/-! ### Position and overflow bookkeeping -/

/-- The `position` header field after `n` calls to `add` on a fresh engine
with block size `w ≥ 1`. -/
def posAfter (n w : Nat) : Nat := if n = 0 then 0 else (n - 1) % w + 1

/-- The `overflow` header field after `n` calls to `add` on a fresh engine
with block size `w ≥ 1`. -/
def ovfAfter (n w : Nat) : Nat := if w < n then 1 else 0

theorem posAfter_le (n w : Nat) (hw : 1 ≤ w) : posAfter n w ≤ w := by
  unfold posAfter
  split
  · omega
  · have := Nat.mod_lt (n - 1) (show 0 < w by omega)
    omega

theorem ovfAfter_le (n w : Nat) : ovfAfter n w ≤ 1 := by
  unfold ovfAfter
  split <;> omega

theorem posAfter_succ (n w : Nat) (hw : 1 ≤ w) :
    posAfter (n + 1) w = n % w + 1 := by
  unfold posAfter
  simp

/-- After the wrap check at the start of call `n+1`, the effective position
is `n % w`. -/
theorem pos_effective (n w : Nat) (hw : 1 ≤ w) :
    (if posAfter n w = w then 0 else posAfter n w) = n % w := by
  unfold posAfter
  by_cases hn : n = 0
  · subst hn
    simp [show ¬ (0 = w) by omega]
  · simp only [hn, if_false]
    have key : n % w = ((n - 1) % w + 1) % w := by
      conv_lhs => rw [show n = (n - 1) + 1 by omega]
      rcases Nat.eq_or_lt_of_le hw with h1 | h1
      · rw [← h1]
        simp [Nat.mod_one]
      · rw [Nat.add_mod, Nat.mod_eq_of_lt h1]
    by_cases h3 : (n - 1) % w + 1 = w
    · simp only [h3, if_true]
      rw [key, h3, Nat.mod_self]
    · simp only [h3, if_false]
      have hml : (n - 1) % w < w := Nat.mod_lt (n - 1) (show 0 < w by omega)
      rw [key, Nat.mod_eq_of_lt (show (n - 1) % w + 1 < w by omega)]

/-- After the wrap check at the start of call `n+1`, the overflow flag equals
the overflow flag recorded after the call completes. -/
theorem ovf_effective (n w : Nat) (hw : 1 ≤ w) :
    (if posAfter n w = w then 1 else ovfAfter n w) = ovfAfter (n + 1) w := by
  unfold posAfter ovfAfter
  by_cases hn : n = 0
  · subst hn
    simp [show ¬ (0 = w) by omega, show ¬ (w < 0) by omega,
      show ¬ (w < 0 + 1) by omega]
  · simp only [hn, if_false]
    have hml : (n - 1) % w < w := Nat.mod_lt _ (by omega)
    have hle : (n - 1) % w ≤ n - 1 := Nat.mod_le _ _
    by_cases hpw : (n - 1) % w + 1 = w
    · simp only [hpw, if_true]
      have h2 : w < n + 1 := by omega
      simp [h2]
    · simp only [hpw, if_false]
      by_cases hwn : w < n
      · simp [hwn, show w < n + 1 by omega]
      · have hwn2 : ¬ (w < n + 1) := by
          intro hcon
          have hwe : w = n := by omega
          apply hpw
          rw [Nat.mod_eq_of_lt (show n - 1 < w by omega)]
          omega
        simp [hwn, hwn2]

/-! ### Circular-buffer index arithmetic -/

theorem slot_self_mod (n w : Nat) (hw : 1 ≤ w) : (n - n % w) % w = 0 := by
  have hd := Nat.div_add_mod n w
  have h1 : n - n % w = w * (n / w) := by omega
  rw [h1, Nat.mul_mod_right]

theorem slot_old (n w j : Nat) (hw : 1 ≤ w) (hj : j < w) (hjn : j < n)
    (hne : j ≠ n % w) :
    1 ≤ (n - j) % w ∧ n - (n - j) % w = n - 1 - ((n - 1 - j) % w) ∧
      (n - j) % w ≤ n - j := by
  have h2 : (n - j) % w ≤ n - j := Nat.mod_le _ _
  have h1 : (n - j) % w ≠ 0 := by
    intro h0
    apply hne
    have hd := Nat.div_add_mod (n - j) w
    have he : n = w * ((n - j) / w) + j := by omega
    have : n % w = j % w := by
      conv_lhs => rw [he]
      exact Nat.mul_add_mod _ _ _
    rw [this, Nat.mod_eq_of_lt hj]
  have hr : (n - j) % w < w := Nat.mod_lt _ (by omega)
  have h3 : (n - 1 - j) % w = (n - j) % w - 1 := by
    have hd := Nat.div_add_mod (n - j) w
    have he : n - 1 - j = w * ((n - j) / w) + ((n - j) % w - 1) := by omega
    rw [he, Nat.mul_add_mod,
      Nat.mod_eq_of_lt (show (n - j) % w - 1 < w by omega)]
  exact ⟨by omega, by omega, h2⟩

theorem slot_removed (n w : Nat) (hw : 1 ≤ w) (hnw : w ≤ n) :
    n - 1 - ((n - 1 - n % w) % w) = n - w := by
  have hd := Nat.div_add_mod n w
  have hml : n % w < w := Nat.mod_lt _ (by omega)
  have hq : 0 < n / w := Nat.div_pos hnw (by omega)
  have hexp : w * (n / w) = w * (n / w - 1) + w := by
    have h1 : n / w = (n / w - 1) + 1 := by omega
    calc w * (n / w) = w * ((n / w - 1) + 1) := by rw [← h1]
      _ = w * (n / w - 1) + w := Nat.mul_succ _ _
  have he : n - 1 - n % w = w * (n / w - 1) + (w - 1) := by omega
  rw [he, Nat.mul_add_mod, Nat.mod_eq_of_lt (show w - 1 < w by omega)]
  omega

/-! ### Loads unaffected by disjoint stores -/

theorem load8_store8_out (m : Mem) (t v x : Nat) (h : x ≠ t) :
    load8 (store8 m t v) x = load8 m x :=
  load8_congr _ _ _ (store8_apply_ne _ _ _ _ h)

theorem load16_store8_out (m : Mem) (t v x : Nat) (h : t < x ∨ x + 2 ≤ t) :
    load16 (store8 m t v) x = load16 m x :=
  load16_congr _ _ _ (store8_apply_ne _ _ _ _ (by omega))
    (store8_apply_ne _ _ _ _ (by omega))

theorem load32_store8_out (m : Mem) (t v x : Nat) (h : t < x ∨ x + 4 ≤ t) :
    load32 (store8 m t v) x = load32 m x :=
  load32_congr _ _ _ (store8_apply_ne _ _ _ _ (by omega))
    (store8_apply_ne _ _ _ _ (by omega)) (store8_apply_ne _ _ _ _ (by omega))
    (store8_apply_ne _ _ _ _ (by omega))

theorem load8_store16_out (m : Mem) (t v x : Nat) (h : x < t ∨ t + 2 ≤ x) :
    load8 (store16 m t v) x = load8 m x :=
  load8_congr _ _ _ (store16_apply_ne _ _ _ _ (by omega) (by omega))

theorem load16_store16_out (m : Mem) (t v x : Nat) (h : x + 2 ≤ t ∨ t + 2 ≤ x) :
    load16 (store16 m t v) x = load16 m x :=
  load16_congr _ _ _ (store16_apply_ne _ _ _ _ (by omega) (by omega))
    (store16_apply_ne _ _ _ _ (by omega) (by omega))

theorem load32_store16_out (m : Mem) (t v x : Nat) (h : x + 4 ≤ t ∨ t + 2 ≤ x) :
    load32 (store16 m t v) x = load32 m x :=
  load32_congr _ _ _ (store16_apply_ne _ _ _ _ (by omega) (by omega))
    (store16_apply_ne _ _ _ _ (by omega) (by omega))
    (store16_apply_ne _ _ _ _ (by omega) (by omega))
    (store16_apply_ne _ _ _ _ (by omega) (by omega))

theorem load8_store32_out (m : Mem) (t v x : Nat) (h : x < t ∨ t + 4 ≤ x) :
    load8 (store32 m t v) x = load8 m x :=
  load8_congr _ _ _
    (store32_apply_ne _ _ _ _ (by omega) (by omega) (by omega) (by omega))

theorem load16_store32_out (m : Mem) (t v x : Nat) (h : x + 2 ≤ t ∨ t + 4 ≤ x) :
    load16 (store32 m t v) x = load16 m x :=
  load16_congr _ _ _
    (store32_apply_ne _ _ _ _ (by omega) (by omega) (by omega) (by omega))
    (store32_apply_ne _ _ _ _ (by omega) (by omega) (by omega) (by omega))

theorem load32_store32_out (m : Mem) (t v x : Nat) (h : x + 4 ≤ t ∨ t + 4 ≤ x) :
    load32 (store32 m t v) x = load32 m x :=
  load32_congr _ _ _
    (store32_apply_ne _ _ _ _ (by omega) (by omega) (by omega) (by omega))
    (store32_apply_ne _ _ _ _ (by omega) (by omega) (by omega) (by omega))
    (store32_apply_ne _ _ _ _ (by omega) (by omega) (by omega) (by omega))
    (store32_apply_ne _ _ _ _ (by omega) (by omega) (by omega) (by omega))

/-! ### Normal forms for one `add` call -/

theorem add_eq_wrap (m : Mem) (sd a b : Nat) (hb : b < 256)
    (hsep : sd + 259 ≤ a ∨ a + 10 ≤ sd)
    (hcond : load16 m (a + 6) = load16 m (a + 4)) :
    add ⟨m, sd⟩ a b =
      (⟨store32 (store16 (store8 (store8 (store16 m (a + 6) 0) (a + 8) 1)
          (a + 9) b) (a + 6) 1) a
          (rotl32 (load32 m a) 1 ^^^
            rotl32 (load32 m (sd + load8 m (a + 9))) (load16 m (a + 4)) ^^^
            load32 m (sd + b)), sd⟩,
        rotl32 (load32 m a) 1 ^^^
          rotl32 (load32 m (sd + load8 m (a + 9))) (load16 m (a + 4)) ^^^
          load32 m (sd + b)) := by
  have hx : load8 m (a + 9) < 256 := load8_lt m (a + 9)
  have e1 : load16 (store8 (store16 m (a + 6) 0) (a + 8) 1) (a + 6) = 0 := by
    rw [load16_store8_out _ _ _ _ (by omega), load16_store16_self]
  have e2 : load8 (store8 (store16 m (a + 6) 0) (a + 8) 1) (a + 8) = 1 := by
    rw [load8_store8_self]
  have e3 : load32 (store8 (store16 m (a + 6) 0) (a + 8) 1) a = load32 m a := by
    rw [load32_store8_out _ _ _ _ (by omega), load32_store16_out _ _ _ _ (by omega)]
  have e4 : load16 (store8 (store16 m (a + 6) 0) (a + 8) 1) (a + 4) =
      load16 m (a + 4) := by
    rw [load16_store8_out _ _ _ _ (by omega), load16_store16_out _ _ _ _ (by omega)]
  have e5 : load8 (store8 (store16 m (a + 6) 0) (a + 8) 1) (a + 9) =
      load8 m (a + 9) := by
    rw [load8_store8_out _ _ _ _ (by omega), load8_store16_out _ _ _ _ (by omega)]
  have e6 : load32 (store8 (store16 m (a + 6) 0) (a + 8) 1)
      (sd + load8 m (a + 9)) = load32 m (sd + load8 m (a + 9)) := by
    rw [load32_store8_out _ _ _ _ (by omega), load32_store16_out _ _ _ _ (by omega)]
  have e7 : load16 (store8 (store8 (store16 m (a + 6) 0) (a + 8) 1) (a + 9) b)
      (a + 6) = 0 := by
    rw [load16_store8_out _ _ _ _ (by omega), e1]
  have e8 : load32 (store16 (store8 (store8 (store16 m (a + 6) 0) (a + 8) 1)
      (a + 9) b) (a + 6) 1) (sd + b) = load32 m (sd + b) := by
    rw [load32_store16_out _ _ _ _ (by omega), load32_store8_out _ _ _ _ (by omega),
      load32_store8_out _ _ _ _ (by omega), load32_store16_out _ _ _ _ (by omega)]
  simp only [add, offsetofHeader]
  rw [if_pos hcond, e1]
  simp only [Nat.add_zero]
  rw [e2, if_pos (by norm_num : (1 : Nat) ≠ 0), e3, e4, e5, e6, e7]
  simp only [Nat.zero_add]
  rw [e8]

theorem add_eq_nowrap (m : Mem) (sd a b w : Nat) (hb : b < 256)
    (hsep : sd + 259 ≤ a ∨ a + 9 + w ≤ sd)
    (hcond : load16 m (a + 6) ≠ load16 m (a + 4))
    (hposw : load16 m (a + 6) < w) :
    add ⟨m, sd⟩ a b =
      (⟨store32 (store16 (store8 m (a + 9 + load16 m (a + 6)) b) (a + 6)
          (load16 m (a + 6) + 1)) a
          ((if load8 m (a + 8) ≠ 0 then
              rotl32 (load32 m a) 1 ^^^
                rotl32 (load32 m (sd + load8 m (a + 9 + load16 m (a + 6))))
                  (load16 m (a + 4))
            else rotl32 (load32 m a) 1) ^^^ load32 m (sd + b)), sd⟩,
        (if load8 m (a + 8) ≠ 0 then
            rotl32 (load32 m a) 1 ^^^
              rotl32 (load32 m (sd + load8 m (a + 9 + load16 m (a + 6))))
                (load16 m (a + 4))
          else rotl32 (load32 m a) 1) ^^^ load32 m (sd + b)) := by
  have e1 : load16 (store8 m (a + 9 + load16 m (a + 6)) b) (a + 6) =
      load16 m (a + 6) := by
    rw [load16_store8_out _ _ _ _ (by omega)]
  have e2 : load32 (store16 (store8 m (a + 9 + load16 m (a + 6)) b) (a + 6)
      (load16 m (a + 6) + 1)) (sd + b) = load32 m (sd + b) := by
    rw [load32_store16_out _ _ _ _ (by omega),
      load32_store8_out _ _ _ _ (by omega)]
  simp only [add, offsetofHeader]
  rw [if_neg hcond, e1, e2]

/-- Loads from the memory produced by the tail of an `add` call (byte store,
position store, state store), in terms of the memory `mx` before them. -/
theorem add_tail_loads (mx : Mem) (a p q S b : Nat) :
    load32 (store32 (store16 (store8 mx (a + 9 + p) b) (a + 6) q) a S) a =
        S % 4294967296 ∧
    load16 (store32 (store16 (store8 mx (a + 9 + p) b) (a + 6) q) a S) (a + 4) =
        load16 mx (a + 4) ∧
    load16 (store32 (store16 (store8 mx (a + 9 + p) b) (a + 6) q) a S) (a + 6) =
        q % 65536 ∧
    load8 (store32 (store16 (store8 mx (a + 9 + p) b) (a + 6) q) a S) (a + 8) =
        load8 mx (a + 8) ∧
    load8 (store32 (store16 (store8 mx (a + 9 + p) b) (a + 6) q) a S) (a + 9 + p) =
        b % 256 ∧
    (∀ j, j ≠ p → load8 (store32 (store16 (store8 mx (a + 9 + p) b) (a + 6) q) a S)
        (a + 9 + j) = load8 mx (a + 9 + j)) ∧
    (∀ x, (x < a ∨ a + 9 ≤ x) → x ≠ a + 9 + p →
      store32 (store16 (store8 mx (a + 9 + p) b) (a + 6) q) a S x = mx x) := by
  refine ⟨?_, ?_, ?_, ?_, ?_, ?_, ?_⟩
  · rw [load32_store32_self]
  · rw [load16_store32_out _ _ _ _ (by omega), load16_store16_out _ _ _ _ (by omega),
      load16_store8_out _ _ _ _ (by omega)]
  · rw [load16_store32_out _ _ _ _ (by omega), load16_store16_self]
  · rw [load8_store32_out _ _ _ _ (by omega), load8_store16_out _ _ _ _ (by omega),
      load8_store8_out _ _ _ _ (by omega)]
  · rw [load8_store32_out _ _ _ _ (by omega), load8_store16_out _ _ _ _ (by omega),
      load8_store8_self]
  · intro j hj
    rw [load8_store32_out _ _ _ _ (by omega), load8_store16_out _ _ _ _ (by omega),
      load8_store8_out _ _ _ _ (by omega)]
  · intro x hx hxp
    rw [store32_apply_ne _ _ _ _ (by omega) (by omega) (by omega) (by omega),
      store16_apply_ne _ _ _ _ (by omega) (by omega),
      store8_apply_ne _ _ _ _ (by omega)]

theorem xor32_lt (x y : Nat) (hx : x < 4294967296) (hy : y < 4294967296) :
    x ^^^ y < 4294967296 := by
  rw [← two_pow_32] at hx hy ⊢
  exact Nat.xor_lt_two_pow hx hy

/-- One `add` call on a represented engine state: all header fields, the
buffer, the returned hash and the memory frame, in terms of the pre-state. -/
theorem add_step (m : Mem) (sd a w b pos ovf pos' ovf' s : Nat)
    (hw1 : 1 ≤ w) (hw2 : w ≤ 65535) (hb : b < 256)
    (hsep : sd + 259 ≤ a ∨ a + 9 + w ≤ sd)
    (hpos : pos ≤ w) (hovf : ovf ≤ 1)
    (hhw : load16 m (a + 4) = w) (hhp : load16 m (a + 6) = pos)
    (hho : load8 m (a + 8) = ovf)
    (hpos' : pos' = if pos = w then 0 else pos)
    (hovf' : ovf' = if pos = w then 1 else ovf)
    (hs : s = (if ovf' ≠ 0 then
        rotl32 (load32 m a) 1 ^^^
          rotl32 (load32 m (sd + load8 m (a + 9 + pos'))) w
      else rotl32 (load32 m a) 1) ^^^ load32 m (sd + b)) :
    (add ⟨m, sd⟩ a b).2 = s ∧
    (add ⟨m, sd⟩ a b).1.staticData = sd ∧
    load32 (add ⟨m, sd⟩ a b).1.mem a = s ∧
    load16 (add ⟨m, sd⟩ a b).1.mem (a + 4) = w ∧
    load16 (add ⟨m, sd⟩ a b).1.mem (a + 6) = pos' + 1 ∧
    load8 (add ⟨m, sd⟩ a b).1.mem (a + 8) = ovf' ∧
    (∀ j, j < w → load8 (add ⟨m, sd⟩ a b).1.mem (a + 9 + j) =
      if j = pos' then b else load8 m (a + 9 + j)) ∧
    (∀ x, x < a ∨ a + 9 + w ≤ x → (add ⟨m, sd⟩ a b).1.mem x = m x) := by
  by_cases hpw : pos = w
  · -- wrap: position resets to 0, overflow set
    rw [if_pos hpw] at hpos' hovf'
    subst hpos' hovf'
    have hcond : load16 m (a + 6) = load16 m (a + 4) := by rw [hhp, hhw, hpw]
    simp only [Nat.add_zero] at hs
    have hsS : s = rotl32 (load32 m a) 1 ^^^
        rotl32 (load32 m (sd + load8 m (a + 9))) w ^^^ load32 m (sd + b) := by
      rw [hs, if_pos (show (1 : Nat) ≠ 0 by norm_num)]
    have hslt : s < 4294967296 := by
      rw [hsS]
      exact xor32_lt _ _ (xor32_lt _ _ (rotl32_lt _ _) (rotl32_lt _ _))
        (load32_lt _ _)
    rw [add_eq_wrap m sd a b hb (by omega) hcond, hhw, ← hsS]
    dsimp only
    obtain ⟨t1, t2, t3, t4, t5, t6, t7⟩ :=
      add_tail_loads (store8 (store16 m (a + 6) 0) (a + 8) 1) a 0 1 s b
    simp only [Nat.add_zero] at t1 t2 t3 t4 t5 t6 t7
    refine ⟨rfl, rfl, ?_, ?_, ?_, ?_, ?_, ?_⟩
    · rw [t1, Nat.mod_eq_of_lt hslt]
    · rw [t2, load16_store8_out _ _ _ _ (by omega),
        load16_store16_out _ _ _ _ (by omega), hhw]
    · rw [t3]
    · rw [t4, load8_store8_self]
    · intro j hj
      by_cases hj0 : j = 0
      · subst hj0
        simp only [Nat.add_zero]
        rw [t5, Nat.mod_eq_of_lt hb]
        simp
      · rw [if_neg hj0, t6 j hj0, load8_store8_out _ _ _ _ (by omega),
          load8_store16_out _ _ _ _ (by omega)]
    · intro x hx
      rw [t7 x (by omega) (by omega), store8_apply_ne _ _ _ _ (by omega),
        store16_apply_ne _ _ _ _ (by omega) (by omega)]
  · -- no wrap: position stays, overflow unchanged
    rw [if_neg hpw] at hpos' hovf'
    subst pos' ovf'
    have hcondn : load16 m (a + 6) ≠ load16 m (a + 4) := by
      rw [hhp, hhw]; exact hpw
    have hposlt : pos < w := by omega
    have hslt : s < 4294967296 := by
      rw [hs]
      refine xor32_lt _ _ ?_ (load32_lt _ _)
      split
      · exact xor32_lt _ _ (rotl32_lt _ _) (rotl32_lt _ _)
      · exact rotl32_lt _ _
    rw [add_eq_nowrap m sd a b w hb hsep hcondn (by rw [hhp]; exact hposlt),
      hhp, hhw, hho, ← hs]
    dsimp only
    obtain ⟨t1, t2, t3, t4, t5, t6, t7⟩ := add_tail_loads m a pos (pos + 1) s b
    refine ⟨rfl, rfl, ?_, ?_, ?_, ?_, ?_, ?_⟩
    · rw [t1, Nat.mod_eq_of_lt hslt]
    · rw [t2, hhw]
    · rw [t3, Nat.mod_eq_of_lt (by omega)]
    · rw [t4, hho]
    · intro j hj
      by_cases hjp : j = pos
      · subst hjp
        rw [t5, Nat.mod_eq_of_lt hb]
        simp
      · rw [if_neg hjp, t6 j hjp]
    · intro x hx
      exact t7 x (by omega) (by omega)

/-! ### The state of a freshly initialized engine -/

theorem init_loads (m : Mem) (a w : Nat) (hw2 : w ≤ 65535) :
    load32 (init m a w) a = 0 ∧
    load16 (init m a w) (a + 4) = w ∧
    load16 (init m a w) (a + 6) = 0 ∧
    load8 (init m a w) (a + 8) = 0 ∧
    (∀ x, x < a ∨ a + 9 ≤ x → init m a w x = m x) := by
  refine ⟨?_, ?_, ?_, ?_, ?_⟩
  · unfold init
    rw [load32_store8_out _ _ _ _ (by omega), load32_store16_out _ _ _ _ (by omega),
      load32_store16_out _ _ _ _ (by omega), load32_store32_self]
  · unfold init
    rw [load16_store8_out _ _ _ _ (by omega), load16_store16_out _ _ _ _ (by omega),
      load16_store16_self, Nat.mod_eq_of_lt (by omega)]
  · unfold init
    rw [load16_store8_out _ _ _ _ (by omega), load16_store16_self]
  · unfold init
    rw [load8_store8_self]
  · intro x hx
    unfold init
    rw [store8_apply_ne _ _ _ _ (by omega), store16_apply_ne _ _ _ _ (by omega) (by omega),
      store16_apply_ne _ _ _ _ (by omega) (by omega),
      store32_apply_ne _ _ _ _ (by omega) (by omega) (by omega) (by omega)]

set_option maxHeartbeats 800000 in
/-- Full characterization of an engine after `init` and an arbitrary byte
feed: global, hash, header fields, buffer contents, memory frame, and the
returned value. -/
theorem run_char (m : Mem) (sd a w : Nat) (xs : List Nat)
    (hw1 : 1 ≤ w) (hw2 : w ≤ 65535)
    (hsep : sd + 259 ≤ a ∨ a + 9 + w ≤ sd)
    (hb : ∀ v ∈ xs, v < 256) :
    (run (⟨⟨init m a w, sd⟩, 0⟩ : ModuleState × Nat) a xs).1.staticData = sd ∧
    load32 (run (⟨⟨init m a w, sd⟩, 0⟩ : ModuleState × Nat) a xs).1.mem a =
      bhash (fun t => load32 m (sd + t)) (xs.drop (xs.length - w)) ∧
    load16 (run (⟨⟨init m a w, sd⟩, 0⟩ : ModuleState × Nat) a xs).1.mem (a + 4) = w ∧
    load16 (run (⟨⟨init m a w, sd⟩, 0⟩ : ModuleState × Nat) a xs).1.mem (a + 6) =
      posAfter xs.length w ∧
    load8 (run (⟨⟨init m a w, sd⟩, 0⟩ : ModuleState × Nat) a xs).1.mem (a + 8) =
      ovfAfter xs.length w ∧
    (∀ j, j < w → j < xs.length →
      load8 (run (⟨⟨init m a w, sd⟩, 0⟩ : ModuleState × Nat) a xs).1.mem (a + 9 + j) =
        xs.getD (xs.length - 1 - ((xs.length - 1 - j) % w)) 0) ∧
    (∀ x, x < a ∨ a + 9 + w ≤ x →
      (run (⟨⟨init m a w, sd⟩, 0⟩ : ModuleState × Nat) a xs).1.mem x = init m a w x) ∧
    (run (⟨⟨init m a w, sd⟩, 0⟩ : ModuleState × Nat) a xs).2 =
      (if xs.length = 0 then 0 else
        load32 (run (⟨⟨init m a w, sd⟩, 0⟩ : ModuleState × Nat) a xs).1.mem a) := by
  obtain ⟨i1, i2, i3, i4, i5⟩ := init_loads m a w hw2
  induction xs using List.reverseRecOn with
  | nil =>
    refine ⟨rfl, ?_, i2, i3, ?_, ?_, ?_, rfl⟩
    · simpa [run, bhash] using i1
    · simpa [run, ovfAfter] using i4
    · intro j _ hj
      simp at hj
    · intro x _
      rfl
  | append_singleton ys b ih =>
    have hbys : ∀ v ∈ ys, v < 256 := fun v hv => hb v (by simp [hv])
    have hbb : b < 256 := hb b (by simp)
    obtain ⟨ih1, ih2, ih3, ih4, ih5, ih6, ih7, ih8⟩ := ih hbys
    have hrun : run (⟨⟨init m a w, sd⟩, 0⟩ : ModuleState × Nat) a (ys ++ [b]) =
        add (run (⟨⟨init m a w, sd⟩, 0⟩ : ModuleState × Nat) a ys).1 a b := by
      simp only [run, List.foldl_append, List.foldl_cons, List.foldl_nil]
    rcases hst : (run (⟨⟨init m a w, sd⟩, 0⟩ : ModuleState × Nat) a ys).1 with ⟨mm, msd⟩
    rw [hst] at ih1 ih2 ih3 ih4 ih5 ih6 ih7
    dsimp only at ih1 ih2 ih3 ih4 ih5 ih6 ih7
    subst msd
    rw [hst] at hrun
    have htab : ∀ t, t < 256 → load32 mm (sd + t) = load32 m (sd + t) := by
      intro t ht
      have hout : ∀ k, k < 4 → mm (sd + t + k) = m (sd + t + k) := by
        intro k hk
        rw [ih7 (sd + t + k) (by omega)]
        exact i5 (sd + t + k) (by omega)
      refine load32_congr _ _ _ ?_ ?_ ?_ ?_
      · have h0 := hout 0 (by omega)
        simpa using h0
      · exact hout 1 (by omega)
      · exact hout 2 (by omega)
      · exact hout 3 (by omega)
    obtain ⟨c1, c2, c3, c4, c5, c6, c7, c8⟩ :=
      add_step mm sd a w b (posAfter ys.length w) (ovfAfter ys.length w)
        (ys.length % w) (ovfAfter (ys.length + 1) w)
        ((if ovfAfter (ys.length + 1) w ≠ 0 then
            rotl32 (load32 mm a) 1 ^^^
              rotl32 (load32 mm (sd + load8 mm (a + 9 + ys.length % w))) w
          else rotl32 (load32 mm a) 1) ^^^ load32 mm (sd + b))
        hw1 hw2 hbb hsep (posAfter_le ys.length w hw1) (ovfAfter_le ys.length w)
        ih3 ih4 ih5 (pos_effective ys.length w hw1).symm
        (ovf_effective ys.length w hw1).symm rfl
    rw [hrun]
    have hlen : (ys ++ [b]).length = ys.length + 1 := by
      simp
    rw [hlen]
    refine ⟨c2, ?_, c4, ?_, c6, ?_, ?_, ?_⟩
    · -- the hash invariant
      rw [c3]
      rcases Nat.lt_or_ge ys.length w with hnw | hnw
      · have hovf0 : ovfAfter (ys.length + 1) w = 0 := by
          unfold ovfAfter
          simp [show ¬ (w < ys.length + 1) by omega]
        rw [hovf0, if_neg (by norm_num : ¬ (0 : Nat) ≠ 0), ih2, htab b hbb,
          show ys.length - w = 0 from by omega,
          show ys.length + 1 - w = 0 from by omega]
        simp only [List.drop_zero]
        rw [bhash_append_one]
      · have hovf1 : ovfAfter (ys.length + 1) w = 1 := by
          unfold ovfAfter
          simp [show w < ys.length + 1 by omega]
        rw [hovf1, if_pos (by norm_num : (1 : Nat) ≠ 0)]
        have hjw : ys.length % w < w := Nat.mod_lt _ (by omega)
        have hjn : ys.length % w < ys.length := by omega
        rw [ih6 (ys.length % w) hjw hjn, slot_removed ys.length w hw1 hnw]
        have hr256 : ys.getD (ys.length - w) 0 < 256 := by
          rw [List.getD_eq_getElem _ _ (by omega)]
          exact hbys _ (List.getElem_mem _)
        rw [htab _ hr256]
        rw [htab b hbb]
        rw [ih2]
        have hdrop : ys.drop (ys.length - w) =
            ys.getD (ys.length - w) 0 :: ys.drop (ys.length - w + 1) := by
          rw [List.drop_eq_getElem_cons (show ys.length - w < ys.length by omega),
            List.getD_eq_getElem _ _ (show ys.length - w < ys.length by omega)]
        rw [hdrop]
        rw [bhash_cons (fun t => load32 m (sd + t)) (ys.getD (ys.length - w) 0)
          (ys.drop (ys.length - w + 1))
          (load32_lt m (sd + ys.getD (ys.length - w) 0))]
        rw [List.length_drop]
        rw [show ys.length - (ys.length - w + 1) = w - 1 from by omega]
        rw [rotl32_xor_distrib]
        rw [rotl32_comp]
        rw [show w - 1 + 1 = w from by omega]
        have cancel : ∀ (d c e : Nat), ((d ^^^ c) ^^^ c) ^^^ e = d ^^^ e := by
          intro d c e
          rw [Nat.xor_assoc d c c, Nat.xor_self, Nat.xor_zero]
        rw [cancel, List.drop_append_of_le_length (by omega),
          show ys.length + 1 - w = ys.length - w + 1 from by omega,
          bhash_append_one]
    · rw [c5, posAfter_succ ys.length w hw1]
    · -- buffer contents
      intro j hj hj2
      simp only [Nat.add_sub_cancel]
      rw [c7 j hj]
      by_cases hjp : j = ys.length % w
      · subst hjp
        simp only [eq_self_iff_true, if_true]
        rw [slot_self_mod ys.length w hw1, Nat.sub_zero,
          List.getD_append_right _ _ _ _ (Nat.le_refl ys.length)]
        simp
      · rw [if_neg hjp]
        have hjn : j < ys.length := by
          rcases Nat.lt_or_ge ys.length w with h | h
          · have heq : ys.length % w = ys.length := Nat.mod_eq_of_lt h
            omega
          · omega
        rw [ih6 j hj hjn]
        obtain ⟨s1, s2, s3⟩ := slot_old ys.length w j hw1 hj hjn hjp
        rw [List.getD_append _ _ _ _ (by omega), s2]
    · intro x hx
      rw [c8 x hx, ih7 x hx]
    · rw [c1, c3]
      simp

/-! ### Concrete instances -/

/-- The module state after `staticInit` wrote the table at address 0 of an
all-zero memory, as in the test harness (`staticInit(0)`). -/
def tableState : ModuleState := (staticInit ⟨zeroMem, usizeMax⟩ 0).1

set_option maxRecDepth 100000 in
/-- C1 (code bug demonstration): `add` looks the contribution up at
`staticData + byte` (a raw byte offset), not at `staticData + 4 * byte`.
Feeding byte 1 to a fresh engine returns the little-endian u32 read at byte
offset 1 of the table (0xea12bd95, straddling the first two entries), not the
table's entry 1 (0xf4140cea), the per-byte-value contribution the spec
describes. -/
theorem c1_lookup_misindexed :
    (add ⟨init tableState.mem 1024 4, tableState.staticData⟩ 1024 1).2 =
      load32 tableState.mem 1 ∧
    load32 tableState.mem 1 = 0xea12bd95 ∧
    staticTable.getD 1 0 = 0xf4140cea ∧
    load32 tableState.mem (4 * 1) = 0xf4140cea ∧
    (add ⟨init tableState.mem 1024 4, tableState.staticData⟩ 1024 1).2 ≠
      staticTable.getD 1 0 := by
  decide

/-- C2: window-only dependence.  After feeding at least `windowSize` bytes,
the returned hash depends only on the last `windowSize` bytes fed: feeding
`P1 ++ W` and `P2 ++ W` (same final window `W` of length `w`, any prefixes of
length at least `w`) into freshly initialized engines yields the same final
hash. -/
theorem c2_window_only_dependence (m : Mem) (sd a w : Nat) (P1 P2 W : List Nat)
    (hw1 : 1 ≤ w) (hw2 : w ≤ 65535)
    (hsep : sd + 259 ≤ a ∨ a + 9 + w ≤ sd)
    (hW : W.length = w) (hP1 : w ≤ P1.length) (hP2 : w ≤ P2.length)
    (hb1 : ∀ v ∈ P1, v < 256) (hb2 : ∀ v ∈ P2, v < 256)
    (hbW : ∀ v ∈ W, v < 256) :
    (run (⟨⟨init m a w, sd⟩, 0⟩ : ModuleState × Nat) a (P1 ++ W)).2 =
      (run (⟨⟨init m a w, sd⟩, 0⟩ : ModuleState × Nat) a (P2 ++ W)).2 := by
  have hx1 : ∀ v ∈ P1 ++ W, v < 256 := by
    intro v hv
    rcases List.mem_append.mp hv with h | h
    · exact hb1 v h
    · exact hbW v h
  have hx2 : ∀ v ∈ P2 ++ W, v < 256 := by
    intro v hv
    rcases List.mem_append.mp hv with h | h
    · exact hb2 v h
    · exact hbW v h
  obtain ⟨-, h2, -, -, -, -, -, h8⟩ := run_char m sd a w (P1 ++ W) hw1 hw2 hsep hx1
  obtain ⟨-, g2, -, -, -, -, -, g8⟩ := run_char m sd a w (P2 ++ W) hw1 hw2 hsep hx2
  have hl1 : (P1 ++ W).length = P1.length + w := by simp [hW]
  have hl2 : (P2 ++ W).length = P2.length + w := by simp [hW]
  rw [h8, if_neg (by omega), g8, if_neg (by omega), h2, g2]
  have e1 : (P1 ++ W).drop ((P1 ++ W).length - w) = W := by
    rw [hl1, show P1.length + w - w = P1.length from by omega]
    exact List.drop_left P1 W
  have e2 : (P2 ++ W).drop ((P2 ++ W).length - w) = W := by
    rw [hl2, show P2.length + w - w = P2.length from by omega]
    exact List.drop_left P2 W
  rw [e1, e2]

/-- C2 witness at a concrete instance: window size 1, differing prefixes,
same final byte. -/
theorem c2_window_only_dependence_witness :
    (run (⟨⟨init zeroMem 300 1, 0⟩, 0⟩ : ModuleState × Nat) 300 ([0] ++ [65])).2 =
      (run (⟨⟨init zeroMem 300 1, 0⟩, 0⟩ : ModuleState × Nat) 300 ([255] ++ [65])).2 :=
  c2_window_only_dependence zeroMem 0 300 1 [0] [255] [65] (by decide) (by decide)
    (Or.inl (by decide)) (by decide) (by decide) (by decide) (by decide)
    (by decide) (by decide)

/-- C3: growing-window phase.  For `1 ≤ k < windowSize`, the hash after
feeding `k` bytes into a fresh engine of window size `w` equals the hash
after feeding the same bytes into a fresh engine of window size `k`. -/
theorem c3_growing_window (m : Mem) (sd a w k : Nat) (xs : List Nat)
    (hk1 : 1 ≤ k) (hkw : k < w) (hw2 : w ≤ 65535)
    (hsep : sd + 259 ≤ a ∨ a + 9 + w ≤ sd)
    (hlen : xs.length = k) (hb : ∀ v ∈ xs, v < 256) :
    (run (⟨⟨init m a w, sd⟩, 0⟩ : ModuleState × Nat) a xs).2 =
      (run (⟨⟨init m a k, sd⟩, 0⟩ : ModuleState × Nat) a xs).2 := by
  have hsepk : sd + 259 ≤ a ∨ a + 9 + k ≤ sd := by
    rcases hsep with h | h
    · exact Or.inl h
    · exact Or.inr (by omega)
  obtain ⟨-, h2, -, -, -, -, -, h8⟩ := run_char m sd a w xs (by omega) hw2 hsep hb
  obtain ⟨-, g2, -, -, -, -, -, g8⟩ :=
    run_char m sd a k xs hk1 (by omega) hsepk hb
  rw [h8, if_neg (by omega), g8, if_neg (by omega), h2, g2,
    show xs.length - w = 0 from by omega, show xs.length - k = 0 from by omega]

/-- C3 witness at a concrete instance: one byte, window sizes 2 and 1. -/
theorem c3_growing_window_witness :
    (run (⟨⟨init zeroMem 300 2, 0⟩, 0⟩ : ModuleState × Nat) 300 [7]).2 =
      (run (⟨⟨init zeroMem 300 1, 0⟩, 0⟩ : ModuleState × Nat) 300 [7]).2 :=
  c3_growing_window zeroMem 0 300 2 1 [7] (by decide) (by decide) (by decide)
    (Or.inl (by decide)) (by decide) (by decide)

set_option maxRecDepth 100000 in
/-- C4 counterexample: with `windowSize = 1`, feeding byte 0x41 does not
return the contribution-table entry for 0x41 rotated left by 1 bit (neither
reading the table entry at index 0x41 nor the raw-offset lookup the code
performs). -/
theorem c4_counterexample :
    (run (⟨⟨init tableState.mem 1024 1, tableState.staticData⟩, 0⟩ :
        ModuleState × Nat) 1024 [0x41]).2 ≠
      rotl32 (staticTable.getD 0x41 0) 1 := by
  decide

set_option maxRecDepth 100000 in
/-- C4 amended: with `windowSize = 1`, feeding byte 0x41 returns exactly the
32-bit little-endian value `add`'s lookup reads for byte 0x41 — the u32 at
byte offset 0x41 into the table data (0xeefbe30e) — with no rotation applied
(the rotate-left acts on the zero initial hash, and the first call performs
no eviction). -/
theorem c4_amended :
    (run (⟨⟨init tableState.mem 1024 1, tableState.staticData⟩, 0⟩ :
        ModuleState × Nat) 1024 [0x41]).2 = load32 tableState.mem 0x41 ∧
    load32 tableState.mem 0x41 = 0xeefbe30e ∧
    rotl32 (staticTable.getD 0x41 0) 1 = 0xa076fe84 := by
  decide

set_option maxRecDepth 100000 in
/-- C5: with a valid destination, `staticInit` writes exactly the 256 fixed
32-bit constants at consecutive 4-byte offsets — the list beginning
0x12bd9527, 0xf4140cea and ending 0x8185f4d2 — touches no other memory, and
returns 1024, the byte size of the table. -/
theorem c5_staticInit_writes_table (st : ModuleState) (dest : Nat)
    (hdest : dest ≠ usizeMax) :
    (staticInit st dest).2 = 1024 ∧
    staticTable.length = 256 ∧
    staticTable.getD 0 0 = 0x12bd9527 ∧
    staticTable.getD 1 0 = 0xf4140cea ∧
    staticTable.getD 255 0 = 0x8185f4d2 ∧
    (∀ i, i < 256 → load32 (staticInit st dest).1.mem (dest + 4 * i) =
      staticTable.getD i 0) ∧
    (∀ x, x < dest ∨ dest + 1024 ≤ x →
      (staticInit st dest).1.mem x = st.mem x) := by
  have hlen : staticTable.length = 256 := by decide
  have hvals : ∀ v ∈ staticTable, v < 4294967296 := by decide
  refine ⟨?_, hlen, by decide, by decide, by decide, ?_, ?_⟩
  · unfold staticInit
    rw [if_neg hdest]
    dsimp only
    rw [storeConsts_snd, hlen]
    omega
  · intro i hi
    unfold staticInit
    rw [if_neg hdest]
    dsimp only
    exact storeConsts_load staticTable st.mem dest i (by rw [hlen]; omega) hvals
  · intro x hx
    unfold staticInit
    rw [if_neg hdest]
    dsimp only
    exact storeConsts_frame staticTable st.mem dest x (by rw [hlen]; omega)

/-- C5 witness at a concrete instance: the harness setup `staticInit(0)` on
zeroed memory; last entry lands at offset 1020 and memory at 5000 is
untouched. -/
theorem c5_staticInit_writes_table_witness :
    (staticInit ⟨zeroMem, usizeMax⟩ 0).2 = 1024 ∧
    load32 (staticInit ⟨zeroMem, usizeMax⟩ 0).1.mem (0 + 4 * 255) =
      staticTable.getD 255 0 ∧
    (staticInit ⟨zeroMem, usizeMax⟩ 0).1.mem 5000 =
      (⟨zeroMem, usizeMax⟩ : ModuleState).mem 5000 :=
  ⟨(c5_staticInit_writes_table ⟨zeroMem, usizeMax⟩ 0 (by decide)).1,
    (c5_staticInit_writes_table ⟨zeroMem, usizeMax⟩ 0 (by decide)).2.2.2.2.2.1
      255 (by omega),
    (c5_staticInit_writes_table ⟨zeroMem, usizeMax⟩ 0 (by decide)).2.2.2.2.2.2
      5000 (by omega)⟩

/-- C6: `size` (the sizing contract `requiredStorage`) equals the fixed
9-byte header overhead plus the window size, for every window size, as a
total pure function. -/
theorem c6_size_overhead : ∀ w : Nat, size w = 9 + w :=
  fun _ => rfl

/-- C7 counterexample: with `windowSize = 1`, after `init` and a single
`add` the stored position equals 1 = windowSize, so `position < windowSize`
fails (the wrap to 0 only happens at the start of the next call). -/
theorem c7_counterexample :
    load16 (add ⟨init zeroMem 300 1, 0⟩ 300 0).1.mem (300 + 4) = 1 ∧
    load16 (add ⟨init zeroMem 300 1, 0⟩ 300 0).1.mem (300 + 6) = 1 ∧
    ¬ (load16 (add ⟨init zeroMem 300 1, 0⟩ 300 0).1.mem (300 + 6) <
        load16 (add ⟨init zeroMem 300 1, 0⟩ 300 0).1.mem (300 + 4)) := by
  decide

/-- C7 amended: for every engine with `windowSize ≥ 1` reachable from
initialization by any sequence of `add` calls, the stored position satisfies
`0 ≤ position ≤ windowSize` after every operation completes; it equals
`windowSize` transiently after the call that completes a buffer revolution
and is wrapped to 0 at the start of the next call. -/
theorem c7_amended (m : Mem) (sd a w : Nat) (xs : List Nat)
    (hw1 : 1 ≤ w) (hw2 : w ≤ 65535)
    (hsep : sd + 259 ≤ a ∨ a + 9 + w ≤ sd)
    (hb : ∀ v ∈ xs, v < 256) :
    load16 (run (⟨⟨init m a w, sd⟩, 0⟩ : ModuleState × Nat) a xs).1.mem (a + 6) ≤ w := by
  obtain ⟨-, -, -, h4, -, -, -, -⟩ := run_char m sd a w xs hw1 hw2 hsep hb
  rw [h4]
  exact posAfter_le xs.length w hw1

/-- C7 amended, witness at a concrete instance. -/
theorem c7_amended_witness :
    load16 (run (⟨⟨init zeroMem 300 1, 0⟩, 0⟩ : ModuleState × Nat) 300
      [0]).1.mem (300 + 6) ≤ 1 :=
  c7_amended zeroMem 0 300 1 [0] (by decide) (by decide) (Or.inl (by decide))
    (by decide)

set_option maxRecDepth 100000 in
/-- C8 (code bug demonstration): with `windowSize = 0` the first `add` call
reads and writes the byte at offset 9 from the engine base — one byte past
the `size 0 = 9`-byte storage region — and the returned hash depends on that
out-of-region byte: two memories that agree on the whole storage region but
differ at base+9 yield different hashes. -/
theorem c8_zero_window_escapes_storage :
    size 0 = 9 ∧
    (add ⟨init tableState.mem 1024 0, tableState.staticData⟩ 1024 5).1.mem 1033 =
      5 ∧
    init tableState.mem 1024 0 1033 = 0 ∧
    (add ⟨store8 (init tableState.mem 1024 0) 1033 1,
        tableState.staticData⟩ 1024 5).2 ≠
      (add ⟨init tableState.mem 1024 0, tableState.staticData⟩ 1024 5).2 := by
  decide

/-- C9: `initialize` establishes `hash = 0`, records the window size, zeroes
`position` and the filled flag, and touches nothing outside the 9-byte
header — in particular the window-buffer bytes after the header and any
prior contents elsewhere are left unmodified, for every prior memory
contents; calling it again on any accumulated state re-establishes the same
empty state. -/
theorem c9_init_establishes_empty_state (m : Mem) (dest w : Nat)
    (hw : w ≤ 65535) :
    load32 (init m dest w) dest = 0 ∧
    load16 (init m dest w) (dest + 4) = w ∧
    load16 (init m dest w) (dest + 6) = 0 ∧
    load8 (init m dest w) (dest + 8) = 0 ∧
    (∀ x, x < dest ∨ dest + 9 ≤ x → init m dest w x = m x) :=
  init_loads m dest w hw

/-- C9 witness at a concrete instance: re-initializing inside a table-filled
memory records the fields and leaves the table byte at 500 untouched. -/
theorem c9_init_witness :
    load16 (init tableState.mem 2000 7) (2000 + 4) = 7 ∧
    init tableState.mem 2000 7 500 = tableState.mem 500 :=
  ⟨(c9_init_establishes_empty_state tableState.mem 2000 7 (by decide)).2.1,
    (c9_init_establishes_empty_state tableState.mem 2000 7 (by decide)).2.2.2.2
      500 (by omega)⟩

/-- C10: calling `staticInit` with the `usize.MAX_VALUE` sentinel returns
1024 while leaving the module state — memory and the recorded table
location — completely unchanged; with any other destination it records that
destination in the `staticData` global, the location `add`'s table lookups
read from. -/
theorem c10_staticInit_sentinel_and_record (st : ModuleState) (dest : Nat)
    (hdest : dest ≠ usizeMax) :
    (staticInit st usizeMax).1 = st ∧
    (staticInit st usizeMax).2 = 1024 ∧
    (staticInit st dest).1.staticData = dest := by
  refine ⟨?_, ?_, ?_⟩
  · unfold staticInit
    rw [if_pos rfl]
  · unfold staticInit
    rw [if_pos rfl]
  · unfold staticInit
    rw [if_neg hdest]

/-- C10 witness at a concrete instance. -/
theorem c10_staticInit_sentinel_and_record_witness :
    (staticInit ⟨zeroMem, 7⟩ usizeMax).1 = (⟨zeroMem, 7⟩ : ModuleState) ∧
    (staticInit ⟨zeroMem, 7⟩ usizeMax).2 = 1024 ∧
    (staticInit ⟨zeroMem, 7⟩ 4).1.staticData = 4 :=
  c10_staticInit_sentinel_and_record ⟨zeroMem, 7⟩ 4 (by decide)
